import Mathlib

set_option maxHeartbeats 1000000

namespace SquashfsXattr

/-- POSIX error numbers used by the code (returned negated, Linux style). -/
def EIOerr : Int := 5

/-- Allocation failure error number. -/
def ENOMEM : Int := 12

/-- Buffer-too-small error number. -/
def ERANGE : Int := 34

/-- Attribute-not-found error number. -/
def ENODATA : Int := 61

/-- Result of one squashfs_read_metadata call, as scripted by the test
environment: either some bytes were produced (possibly fewer than
requested, the hard end-of-stream case) or the read failed with a
negative error code `-(e+1)`.  The metadata cursor (block, offset and
the decompressing reader behind it) is an external collaborator of
xattr.c, so it is modelled as this response script. -/
inductive ReadResult where
  | ok (bytes : List Nat)
  | ioError (e : Nat)
deriving DecidableEq, Repr

/-- The world threaded through the code: the metadata cursor's response
script, the kmalloc success oracle (empty list means every allocation
succeeds) and the number of currently live (allocated, not yet freed)
buffers, used to state the no-leak invariants. -/
structure World where
  cursor : List ReadResult
  allocs : List Bool
  live : Nat
deriving DecidableEq, Repr

/-- Model of squashfs_read_metadata: pops the next scripted response and
returns (err, bytes, world').  err is the number of bytes actually read,
or a negative error code.  At most `len` bytes are delivered; an empty
script is a hard end of stream delivering 0 bytes. -/
def readMetadata (w : World) (len : Nat) : Int × List Nat × World :=
  match w.cursor with
  | [] => (0, [], w)
  | ReadResult.ok bs :: rest =>
      let b := bs.take len
      ((b.length : Int), b, { w with cursor := rest })
  | ReadResult.ioError e :: rest => (-(e + 1 : Int), [], { w with cursor := rest })

/-- Model of kmalloc: pops the next allocation oracle entry (an empty
oracle always succeeds) and counts live allocations. -/
def kmalloc (w : World) (_size : Nat) : Bool × World :=
  match w.allocs with
  | [] => (true, { w with live := w.live + 1 })
  | b :: rest =>
      if b then (true, { w with allocs := rest, live := w.live + 1 })
      else (false, { w with allocs := rest })

/-- le32_to_cpu of a 4-byte buffer (shorter buffers are zero-padded;
the code only applies this after checking that 4 bytes were read). -/
def le32 : List Nat → Nat
  | b0 :: b1 :: b2 :: b3 :: _ => b0 + 256 * b1 + 65536 * b2 + 16777216 * b3
  | [b0, b1, b2] => b0 + 256 * b1 + 65536 * b2
  | [b0, b1] => b0 + 256 * b1
  | [b0] => b0
  | [] => 0

/-- struct squashfs_xattr_iterator.  `name`/`value` are the kmalloc'd
buffers (none = NULL); `remaining_bytes` is the unsigned 32-bit budget;
`block`/`offset` are the decoded start position (the cursor script in
`world` stands for the byte stream seated there). -/
structure Iter where
  name_len : Nat
  value_len : Nat
  name : Option (List Nat)
  value : Option (List Nat)
  block : Nat
  offset : Nat
  remaining_bytes : Nat
  world : World
deriving DecidableEq, Repr

/-- xattr_iterator_release_buffer: kfree both buffers (kfree(NULL) is a
no-op) and NULL the pointers. -/
def xattr_iterator_release_buffer (it : Iter) : Iter :=
  let w1 := if it.name.isSome then { it.world with live := it.world.live - 1 } else it.world
  let w2 := if it.value.isSome then { w1 with live := w1.live - 1 } else w1
  { it with name := none, value := none, world := w2 }

/-- Payload phase of xattr_iterator_read_next (C lines 198-223): the
name/value buffer allocations, the name read with its appended NUL
terminator, the value read, and the final budget decrement.  `vl` is
the iterator's incoming value pointer (still stored in the ENOMEM
result for the name allocation, exactly as the C leaves iter->value
untouched there). -/
def xattr_read_payload (nl vlen : Nat) (vl : Option (List Nat))
    (blk off R1 : Nat) (w : World) : Int × Iter :=
  let a1 := kmalloc w (nl + 1)
  if a1.1 = false then (-ENOMEM, ⟨nl, vlen, none, vl, blk, off, R1, a1.2⟩)
  else
    let a2 := kmalloc a1.2 vlen
    if a2.1 = false then (-ENOMEM, ⟨nl, vlen, some [], none, blk, off, R1, a2.2⟩)
    else
      let r2 := readMetadata a2.2 nl
      if r2.1 < 0 then (r2.1, ⟨nl, vlen, some r2.2.1, some [], blk, off, R1, r2.2.2⟩)
      else if r2.1 < (nl : Int) then
        (-EIOerr, ⟨nl, vlen, some r2.2.1, some [], blk, off, R1, r2.2.2⟩)
      else
        let r3 := readMetadata r2.2.2 vlen
        if r3.1 < 0 then
          (r3.1, ⟨nl, vlen, some (r2.2.1 ++ [0]), some r3.2.1, blk, off, R1, r3.2.2⟩)
        else if r3.1 < (vlen : Int) then
          (-EIOerr, ⟨nl, vlen, some (r2.2.1 ++ [0]), some r3.2.1, blk, off, R1, r3.2.2⟩)
        else
          (1, ⟨nl, vlen, some (r2.2.1 ++ [0]), some r3.2.1, blk, off, R1 - (nl + vlen), r3.2.2⟩)

/-- xattr_iterator_read_next, transcribed branch for branch from the C
source: returns 1 with a decoded entry, 0 when no entry is available,
or a negative error.  The payload phase (the two kmallocs, the name and
value reads, the appended NUL terminator and the final budget
decrement, C lines 198-223) is split out as xattr_read_payload above;
the header phase below covers C lines 163-196. -/
def xattr_iterator_read_next : Iter → Int × Iter
  | ⟨a, b, nm, vl, blk, off, R, w⟩ =>
    if R = 0 then (0, ⟨a, b, nm, vl, blk, off, R, w⟩)
    else if R < 8 then (-EIOerr, ⟨a, b, nm, vl, blk, off, R, w⟩)
    else
      let r1 := readMetadata w 8
      if r1.1 < 0 then (r1.1, ⟨a, b, nm, vl, blk, off, R, r1.2.2⟩)
      else if r1.1 < 8 then (0, ⟨a, b, nm, vl, blk, off, R, r1.2.2⟩)
      else
        let nl := le32 (r1.2.1.take 4)
        let vlen := le32 (r1.2.1.drop 4)
        if 4096 < nl ∨ 65536 < vlen then (-EIOerr, ⟨nl, vlen, nm, vl, blk, off, R - 8, r1.2.2⟩)
        else if R - 8 < nl + vlen then (-EIOerr, ⟨nl, vlen, nm, vl, blk, off, R - 8, r1.2.2⟩)
        else xattr_read_payload nl vlen vl blk off (R - 8) r1.2.2

/-- squashfs_xattr_iterator_start: decode the locator (the C code holds
it in a signed `int`, so the shift is an arithmetic shift, `Int.fdiv` by
8192, and the mask is `emod` 8192), read the 4-byte header and set the
unsigned 32-bit budget `size - 4`.  A sentinel locator or absent table
yields 0 (empty set) with the zeroed iterator. -/
def squashfs_xattr_iterator_start (xattr xattr_table : Int) (w : World) : Int × Iter :=
  let it : Iter := { name_len := 0, value_len := 0, name := none, value := none,
                     block := 0, offset := 0, remaining_bytes := 0, world := w }
  if xattr = -1 ∨ xattr_table = -1 then (0, it)
  else
    let it0 := { it with
      block := ((xattr_table + Int.fdiv xattr 8192).emod 18446744073709551616).toNat,
      offset := (xattr.emod 8192).toNat }
    let r := readMetadata it0.world 4
    let it1 := { it0 with world := r.2.2 }
    if r.1 < 0 then (r.1, it1)
    else if r.1 < 4 then (-EIOerr, it1)
    else (1, { it1 with remaining_bytes := (le32 r.2.1 + 4294967292) % 4294967296 })

/-- squashfs_xattr_iterator_next: release the previous entry's buffers,
then read the next entry. -/
def squashfs_xattr_iterator_next (it : Iter) : Int × Iter :=
  xattr_iterator_read_next (xattr_iterator_release_buffer it)

/-- squashfs_xattr_iterator_end: release the buffers. -/
def squashfs_xattr_iterator_end (it : Iter) : Iter :=
  xattr_iterator_release_buffer it

/-- Linux strncmp over byte lists; a list end stands for the NUL
terminator of the C string (buffers built by the iterator carry their
terminator explicitly). -/
def strncmp : List Nat → List Nat → Nat → Int
  | _, _, 0 => 0
  | s, t, Nat.succ n =>
    let c1 := s.headD 0
    let c2 := t.headD 0
    if c1 ≠ c2 then (if c1 < c2 then -1 else 1)
    else if c1 = 0 then 0
    else strncmp s.tail t.tail n

/-- XATTR_TRUSTED namespace bytes, "trusted." (length 8). -/
def XATTR_TRUSTED : List Nat := [116, 114, 117, 115, 116, 101, 100, 46]

/-- filtered(name) from the C source: with CAP_SYS_ADMIN nothing is
filtered, otherwise the entry is filtered exactly when strncmp against
the trusted namespace bytes is nonzero. -/
def filtered (priv : Bool) (name : List Nat) : Bool :=
  if priv then false
  else decide (strncmp name XATTR_TRUSTED 8 ≠ 0)

/-- Loop body of squashfs_listxattr, fuelled (the fuel passed by
squashfs_listxattr always exceeds the cursor script length, and every
iteration that continues consumes at least one script element, so the
fuel-exhaustion branch is unreachable there).  Returns
(err, written, bytes written to the user buffer, final iterator). -/
def listLoop (priv buf : Bool) : Nat → Nat → Nat → List Nat → Iter → Int × Nat × List Nat × Iter
  | 0, _, written, out, it => (-EIOerr, written, out, it)
  | Nat.succ fuel, size, written, out, it =>
    let r := squashfs_xattr_iterator_next it
    if r.1 = 1 then
      let it1 := r.2
      let count := it1.name_len + 1
      if filtered priv (it1.name.getD []) then
        listLoop priv buf fuel size written out it1
      else
        let written1 := written + count
        if buf = false then
          listLoop priv buf fuel size written1 out it1
        else if size < count then
          (-ERANGE, written1, out, it1)
        else
          listLoop priv buf fuel (size - count) written1
            (out ++ (it1.name.getD []).take it1.name_len ++ [0]) it1
    else (r.1, written, out, r.2)

/-- squashfs_listxattr: returns (result, bytes written, final world).
`buf = false` models a NULL buffer (sizing mode). -/
def squashfs_listxattr (priv : Bool) (xattr xattr_table : Int) (buf : Bool) (size : Nat)
    (w : World) : Int × List Nat × World :=
  let r := squashfs_xattr_iterator_start xattr xattr_table w
  if r.1 ≤ 0 then (r.1, [], r.2.world)
  else
    let q := listLoop priv buf (r.2.world.cursor.length + 1) size 0 [] r.2
    let itEnd := squashfs_xattr_iterator_end q.2.2.2
    (if q.1 < 0 then q.1 else (q.2.1 : Int), q.2.2.1, itEnd.world)

/-- Loop body of squashfs_getxattr, fuelled like listLoop.  The first
component records whether control left the loop through the `found`
label (the C code then skips `err = -ENODATA`). -/
def getLoop (qname : List Nat) (buf : Bool) (size : Nat) :
    Nat → Iter → Bool × Int × List Nat × Iter
  | 0, it => (false, -EIOerr, [], it)
  | Nat.succ fuel, it =>
    let r := squashfs_xattr_iterator_next it
    if r.1 = 1 then
      let it1 := r.2
      if strncmp qname (it1.name.getD []) it1.name_len ≠ 0 then
        getLoop qname buf size fuel it1
      else
        if buf then
          if size < it1.value_len then (true, -ERANGE, [], it1)
          else (true, (it1.value_len : Int), it1.value.getD [], it1)
        else (true, (it1.value_len : Int), [], it1)
    else (false, r.1, [], r.2)

/-- squashfs_getxattr: returns (result, bytes copied to the user buffer,
final world).  The loop's error exits fall through the `notfound` label
exactly as in the C source, so err is replaced by -ENODATA whenever the
loop did not exit through `found`. -/
def squashfs_getxattr (xattr xattr_table : Int) (qname : List Nat) (buf : Bool) (size : Nat)
    (w : World) : Int × List Nat × World :=
  let r := squashfs_xattr_iterator_start xattr xattr_table w
  if r.1 < 0 then (r.1, [], r.2.world)
  else if r.1 = 0 then
    let itEnd := squashfs_xattr_iterator_end r.2
    (-ENODATA, [], itEnd.world)
  else
    let q := getLoop qname buf size (r.2.world.cursor.length + 1) r.2
    let e := if q.1 then q.2.1 else -ENODATA
    let itEnd := squashfs_xattr_iterator_end q.2.2.2
    (e, q.2.2.1, itEnd.world)

/-- Conversion of a 32-bit locator value to the signed `int` the C code
stores it in (two's complement). -/
def toInt32 (x : Nat) : Int :=
  if x % 4294967296 < 2147483648 then ((x % 4294967296 : Nat) : Int)
  else ((x % 4294967296 : Nat) : Int) - 4294967296

/-- Abstract attribute entry: raw name bytes and raw value bytes. -/
structure XEntry where
  name : List Nat
  value : List Nat
deriving DecidableEq, Repr

/-- On-disk size of one entry: 8-byte header plus payload. -/
def entrySize (e : XEntry) : Nat := 8 + e.name.length + e.value.length

/-- Total payload size of a list of entries. -/
def sumSizes : List XEntry → Nat
  | [] => 0
  | e :: tl => entrySize e + sumSizes tl

/-- Little-endian 32-bit encoding of a number. -/
def le32enc (n : Nat) : List Nat :=
  [n % 256, n / 256 % 256, n / 65536 % 256, n / 16777216 % 256]

/-- Cursor responses delivering the encoded entries, one response per
read issued by the iterator (8-byte header, name bytes, value bytes). -/
def encodeEntries : List XEntry → List ReadResult
  | [] => []
  | e :: tl =>
      ReadResult.ok (le32enc e.name.length ++ le32enc e.value.length) ::
      ReadResult.ok e.name :: ReadResult.ok e.value :: encodeEntries tl

/-- Cursor responses for a whole attribute set: the 4-byte total-size
header followed by the entries. -/
def encodeSet (es : List XEntry) : List ReadResult :=
  ReadResult.ok (le32enc (4 + sumSizes es)) :: encodeEntries es

/-- Well-formedness of an attribute set: every entry within the per-field
bounds and the total size representable in the 32-bit header. -/
def WFSet (es : List XEntry) : Prop :=
  4 + sumSizes es < 4294967296 ∧
  ∀ e ∈ es, e.name.length ≤ 4096 ∧ e.value.length ≤ 65536

/-- Listing size required by the passing (non-filtered) entries. -/
def reqSize (priv : Bool) : List XEntry → Nat
  | [] => 0
  | e :: tl =>
      (if filtered priv (e.name ++ [0]) then 0 else e.name.length + 1) + reqSize priv tl

/-- Bytes a successful buffered List writes: each passing name followed
by its NUL terminator, in order. -/
def namesOut (priv : Bool) : List XEntry → List Nat
  | [] => []
  | e :: tl =>
      (if filtered priv (e.name ++ [0]) then [] else e.name ++ [0]) ++ namesOut priv tl

/-- First entry matched by squashfs_getxattr's comparison: strncmp of the
query against the NUL-terminated decoded name, bounded by the entry's
name_len. -/
def matchFirst (qname : List Nat) (es : List XEntry) : Option XEntry :=
  es.find? (fun e => strncmp qname (e.name ++ [0]) e.name.length == 0)

/-- Number of live buffers held by an iterator's name/value slots. -/
def countSome (it : Iter) : Nat :=
  (if it.name.isSome then 1 else 0) + (if it.value.isSome then 1 else 0)

/-- Fuelled count of successful iterator steps. -/
def iterCountF : Nat → Iter → Nat
  | 0, _ => 0
  | Nat.succ fuel, it =>
    let r := squashfs_xattr_iterator_next it
    if r.1 = 1 then 1 + iterCountF fuel r.2 else 0

/-- Number of entries a query driving the iterator obtains before the
iterator reports Exhausted or an error. -/
def iterCount (it : Iter) : Nat := iterCountF (it.world.cursor.length + 1) it

lemma le32_le32enc (x : Nat) (h : x < 4294967296) : le32 (le32enc x) = x := by
  simp only [le32enc, le32]
  omega

lemma le32enc_append_take4 (x y : Nat) : (le32enc x ++ le32enc y).take 4 = le32enc x := rfl

lemma le32enc_append_drop4 (x y : Nat) : (le32enc x ++ le32enc y).drop 4 = le32enc y := rfl

lemma le32enc_append_take8 (x y : Nat) :
    (le32enc x ++ le32enc y).take 8 = le32enc x ++ le32enc y := rfl

lemma le32enc_append_length (x y : Nat) : (le32enc x ++ le32enc y).length = 8 := rfl

lemma read_next_encode (n v : List Nat) (hn : n.length ≤ 4096) (hv : v.length ≤ 65536)
    (a b blk off R L : Nat) (rest : List ReadResult) :
    xattr_iterator_read_next
      ⟨a, b, none, none, blk, off, 8 + n.length + v.length + R,
        ⟨ReadResult.ok (le32enc n.length ++ le32enc v.length) ::
         ReadResult.ok n :: ReadResult.ok v :: rest, [], L⟩⟩
    = (1, ⟨n.length, v.length, some (n ++ [0]), some v, blk, off, R, ⟨rest, [], L + 2⟩⟩) := by
  have hn32 : le32 (le32enc n.length) = n.length := le32_le32enc _ (by omega)
  have hv32 : le32 (le32enc v.length) = v.length := le32_le32enc _ (by omega)
  have c1 : ¬ (8 + n.length + v.length + R = 0) := by omega
  have c2 : ¬ (8 + n.length + v.length + R < 8) := by omega
  have c3 : ¬ (4096 < n.length ∨ 65536 < v.length) := by omega
  have c4 : ¬ (8 + n.length + v.length + R - 8 < n.length + v.length) := by omega
  have c5 : ¬ ((n.length : Int) < 0) := by exact_mod_cast Int.not_lt.mpr (Int.natCast_nonneg _)
  have c6 : ¬ ((v.length : Int) < 0) := by exact_mod_cast Int.not_lt.mpr (Int.natCast_nonneg _)
  simp only [xattr_iterator_read_next, xattr_read_payload, readMetadata, kmalloc,
    le32enc_append_take8, le32enc_append_length, le32enc_append_take4, le32enc_append_drop4,
    hn32, hv32, List.take_length, List.length_take, min_self,
    c1, c2, c3, c4, c5, c6, if_false, if_true, lt_irrefl, lt_self_iff_false]
  norm_num
  omega

lemma release_balanced (a b blk off R L : Nat) (nm vl : Option (List Nat))
    (cur : List ReadResult) (al : List Bool) :
    xattr_iterator_release_buffer
      ⟨a, b, nm, vl, blk, off, R,
        ⟨cur, al, L + (if nm.isSome then 1 else 0) + (if vl.isSome then 1 else 0)⟩⟩
    = ⟨a, b, none, none, blk, off, R, ⟨cur, al, L⟩⟩ := by
  cases nm <;> cases vl <;> simp [xattr_iterator_release_buffer]

lemma next_zero_encode (a b blk off L live : Nat) (nm vl : Option (List Nat))
    (cur : List ReadResult) (al : List Bool)
    (hlive : live = L + (if nm.isSome then 1 else 0) + (if vl.isSome then 1 else 0)) :
    squashfs_xattr_iterator_next ⟨a, b, nm, vl, blk, off, 0, ⟨cur, al, live⟩⟩
      = (0, ⟨a, b, none, none, blk, off, 0, ⟨cur, al, L⟩⟩) := by
  subst hlive
  unfold squashfs_xattr_iterator_next
  rw [release_balanced]
  simp [xattr_iterator_read_next]

lemma next_encode (n v : List Nat) (hn : n.length ≤ 4096) (hv : v.length ≤ 65536)
    (a b blk off R L live : Nat) (nm vl : Option (List Nat)) (rest : List ReadResult)
    (hlive : live = L + (if nm.isSome then 1 else 0) + (if vl.isSome then 1 else 0)) :
    squashfs_xattr_iterator_next
      ⟨a, b, nm, vl, blk, off, 8 + n.length + v.length + R,
        ⟨ReadResult.ok (le32enc n.length ++ le32enc v.length) ::
         ReadResult.ok n :: ReadResult.ok v :: rest, [], live⟩⟩
    = (1, ⟨n.length, v.length, some (n ++ [0]), some v, blk, off, R, ⟨rest, [], L + 2⟩⟩) := by
  subst hlive
  unfold squashfs_xattr_iterator_next
  rw [release_balanced]
  exact read_next_encode n v hn hv a b blk off R L rest

lemma encodeEntries_length (es : List XEntry) : (encodeEntries es).length = 3 * es.length := by
  induction es with
  | nil => rfl
  | cons e tl ih => simp [encodeEntries, ih]; omega

lemma listLoop_encode_nobuf (priv : Bool) :
    ∀ (es : List XEntry) (fuel size written : Nat) (out : List Nat)
      (a b blk off L live : Nat) (nm vl : Option (List Nat)),
      (∀ e ∈ es, e.name.length ≤ 4096 ∧ e.value.length ≤ 65536) →
      3 * es.length < fuel →
      live = L + (if nm.isSome then 1 else 0) + (if vl.isSome then 1 else 0) →
      (listLoop priv false fuel size written out
          ⟨a, b, nm, vl, blk, off, sumSizes es, ⟨encodeEntries es, [], live⟩⟩).1 = 0 ∧
      (listLoop priv false fuel size written out
          ⟨a, b, nm, vl, blk, off, sumSizes es, ⟨encodeEntries es, [], live⟩⟩).2.1
        = written + reqSize priv es ∧
      (listLoop priv false fuel size written out
          ⟨a, b, nm, vl, blk, off, sumSizes es, ⟨encodeEntries es, [], live⟩⟩).2.2.1 = out ∧
      (listLoop priv false fuel size written out
          ⟨a, b, nm, vl, blk, off, sumSizes es, ⟨encodeEntries es, [], live⟩⟩).2.2.2.world
        = ⟨[], [], L⟩ ∧
      (listLoop priv false fuel size written out
          ⟨a, b, nm, vl, blk, off, sumSizes es, ⟨encodeEntries es, [], live⟩⟩).2.2.2.name
        = none ∧
      (listLoop priv false fuel size written out
          ⟨a, b, nm, vl, blk, off, sumSizes es, ⟨encodeEntries es, [], live⟩⟩).2.2.2.value
        = none := by
  intro es
  induction es with
  | nil =>
    intro fuel size written out a b blk off L live nm vl _ hfuel hlive
    cases fuel with
    | zero => exact (Nat.not_lt_zero _ hfuel).elim
    | succ f =>
      simp only [listLoop, sumSizes, encodeEntries]
      rw [next_zero_encode a b blk off L live nm vl _ _ hlive]
      simp [reqSize]
  | cons e tl ih =>
    intro fuel size written out a b blk off L live nm vl hb hfuel hlive
    cases fuel with
    | zero => exact (Nat.not_lt_zero _ hfuel).elim
    | succ f =>
      have he := hb e (by simp)
      have htl : ∀ x ∈ tl, x.name.length ≤ 4096 ∧ x.value.length ≤ 65536 := by
        intro x hx; exact hb x (by simp [hx])
      have hf : 3 * tl.length < f := by
        simp only [List.length_cons] at hfuel; omega
      simp only [listLoop, sumSizes, entrySize, encodeEntries]
      rw [next_encode e.name e.value he.1 he.2 a b blk off (sumSizes tl) L live nm vl _ hlive]
      by_cases hfil : filtered priv (e.name ++ [0]) = true
      · rcases ih f size written out e.name.length e.value.length blk off L (L + 2)
          (some (e.name ++ [0])) (some e.value) htl hf (by simp) with ⟨h1, h2, h3, h4, h5, h6⟩
        simp [hfil, h1, h2, h3, h4, h5, h6, reqSize]
      · rcases ih f size (written + (e.name.length + 1)) out e.name.length e.value.length blk off
          L (L + 2) (some (e.name ++ [0])) (some e.value) htl hf (by simp) with ⟨g1, g2, g3, g4, g5, g6⟩
        simp [hfil, g1, g2, g3, g4, g5, g6, reqSize]
        omega

lemma listLoop_encode_buf (priv : Bool) :
    ∀ (es : List XEntry) (fuel size written : Nat) (out : List Nat)
      (a b blk off L live : Nat) (nm vl : Option (List Nat)),
      (∀ e ∈ es, e.name.length ≤ 4096 ∧ e.value.length ≤ 65536) →
      3 * es.length < fuel →
      reqSize priv es ≤ size →
      live = L + (if nm.isSome then 1 else 0) + (if vl.isSome then 1 else 0) →
      (listLoop priv true fuel size written out
          ⟨a, b, nm, vl, blk, off, sumSizes es, ⟨encodeEntries es, [], live⟩⟩).1 = 0 ∧
      (listLoop priv true fuel size written out
          ⟨a, b, nm, vl, blk, off, sumSizes es, ⟨encodeEntries es, [], live⟩⟩).2.1
        = written + reqSize priv es ∧
      (listLoop priv true fuel size written out
          ⟨a, b, nm, vl, blk, off, sumSizes es, ⟨encodeEntries es, [], live⟩⟩).2.2.1
        = out ++ namesOut priv es ∧
      (listLoop priv true fuel size written out
          ⟨a, b, nm, vl, blk, off, sumSizes es, ⟨encodeEntries es, [], live⟩⟩).2.2.2.world
        = ⟨[], [], L⟩ ∧
      (listLoop priv true fuel size written out
          ⟨a, b, nm, vl, blk, off, sumSizes es, ⟨encodeEntries es, [], live⟩⟩).2.2.2.name
        = none ∧
      (listLoop priv true fuel size written out
          ⟨a, b, nm, vl, blk, off, sumSizes es, ⟨encodeEntries es, [], live⟩⟩).2.2.2.value
        = none := by
  intro es
  induction es with
  | nil =>
    intro fuel size written out a b blk off L live nm vl _ hfuel _ hlive
    cases fuel with
    | zero => exact (Nat.not_lt_zero _ hfuel).elim
    | succ f =>
      simp only [listLoop, sumSizes, encodeEntries]
      rw [next_zero_encode a b blk off L live nm vl _ _ hlive]
      simp [reqSize, namesOut]
  | cons e tl ih =>
    intro fuel size written out a b blk off L live nm vl hb hfuel hsz hlive
    cases fuel with
    | zero => exact (Nat.not_lt_zero _ hfuel).elim
    | succ f =>
      have he := hb e (by simp)
      have htl : ∀ x ∈ tl, x.name.length ≤ 4096 ∧ x.value.length ≤ 65536 := by
        intro x hx; exact hb x (by simp [hx])
      have hf : 3 * tl.length < f := by
        simp only [List.length_cons] at hfuel; omega
      simp only [listLoop, sumSizes, entrySize, encodeEntries]
      rw [next_encode e.name e.value he.1 he.2 a b blk off (sumSizes tl) L live nm vl _ hlive]
      by_cases hfil : filtered priv (e.name ++ [0]) = true
      · have hsz' : reqSize priv tl ≤ size := by
          simp only [reqSize, hfil, if_true] at hsz; omega
        rcases ih f size written out e.name.length e.value.length blk off L (L + 2)
          (some (e.name ++ [0])) (some e.value) htl hf hsz' (by simp) with ⟨h1, h2, h3, h4, h5, h6⟩
        simp [hfil, h1, h2, h3, h4, h5, h6, reqSize, namesOut]
      · have hcnt : reqSize priv (e :: tl) = e.name.length + 1 + reqSize priv tl := by
          simp [reqSize, hfil]
        have hnosmall : ¬ (size < e.name.length + 1) := by rw [hcnt] at hsz; omega
        have hsz' : reqSize priv tl ≤ size - (e.name.length + 1) := by
          rw [hcnt] at hsz; omega
        rcases ih f (size - (e.name.length + 1)) (written + (e.name.length + 1))
          (out ++ (e.name ++ [0])) e.name.length e.value.length blk off
          L (L + 2) (some (e.name ++ [0])) (some e.value) htl hf hsz' (by simp)
          with ⟨g1, g2, g3, g4, g5, g6⟩
        simp [hfil, hnosmall, List.take_left, g1, g2, g3, g4, g5, g6, reqSize, namesOut]
        omega

lemma le32enc_take4 (x : Nat) : (le32enc x).take 4 = le32enc x := rfl

lemma le32enc_length (x : Nat) : (le32enc x).length = 4 := rfl

lemma start_encode (es : List XEntry) (x t : Int) (L : Nat)
    (hx : x ≠ -1) (ht : t ≠ -1) (hsize : 4 + sumSizes es < 4294967296) :
    squashfs_xattr_iterator_start x t ⟨encodeSet es, [], L⟩
      = (1, ⟨0, 0, none, none,
             ((t + Int.fdiv x 8192).emod 18446744073709551616).toNat,
             (x.emod 8192).toNat, sumSizes es, ⟨encodeEntries es, [], L⟩⟩) := by
  have hcond : ¬ (x = -1 ∨ t = -1) := by tauto
  have h32 : le32 (le32enc (4 + sumSizes es)) = 4 + sumSizes es := le32_le32enc _ hsize
  simp only [squashfs_xattr_iterator_start, encodeSet, readMetadata, hcond,
    le32enc_take4, le32enc_length, h32, if_false]
  norm_num
  omega

lemma release_of_none (it : Iter) (h1 : it.name = none) (h2 : it.value = none) :
    xattr_iterator_release_buffer it = it := by
  cases it
  simp_all [xattr_iterator_release_buffer]

/-- C6 kernel: on any well-formed encoded attribute set, a sizing call
(NULL buffer) returns the sum of name_len+1 over the non-filtered
entries touching no buffer, and a buffered call with exactly that
capacity succeeds, writes the NUL-terminated names, and returns that
same total.  The cursor script ends fully consumed and no buffer leaks
(live count back to L). -/
theorem squashfs_listxattr_sizing_roundtrip (es : List XEntry) (priv : Bool) (x t : Int)
    (L : Nat) (hwf : WFSet es) (hx : x ≠ -1) (ht : t ≠ -1) :
    squashfs_listxattr priv x t false 0 ⟨encodeSet es, [], L⟩
      = ((reqSize priv es : Int), [], ⟨[], [], L⟩) ∧
    squashfs_listxattr priv x t true (reqSize priv es) ⟨encodeSet es, [], L⟩
      = ((reqSize priv es : Int), namesOut priv es, ⟨[], [], L⟩) := by
  rcases hwf with ⟨hsize, hb⟩
  have hst := start_encode es x t L hx ht hsize
  have hfuel : 3 * es.length < (encodeEntries es).length + 1 := by
    rw [encodeEntries_length]; omega
  constructor
  · rcases listLoop_encode_nobuf priv es ((encodeEntries es).length + 1) 0 0 [] 0 0
      (((t + Int.fdiv x 8192).emod 18446744073709551616).toNat)
      ((x.emod 8192).toNat) L L none none hb hfuel (by simp) with ⟨h1, h2, h3, h4, h5, h6⟩
    simp only [squashfs_listxattr, hst, squashfs_xattr_iterator_end]
    norm_num
    rw [release_of_none _ h5 h6]
    simp [h1, h2, h3, h4]
  · rcases listLoop_encode_buf priv es ((encodeEntries es).length + 1) (reqSize priv es) 0 [] 0 0
      (((t + Int.fdiv x 8192).emod 18446744073709551616).toNat)
      ((x.emod 8192).toNat) L L none none hb hfuel le_rfl (by simp)
      with ⟨h1, h2, h3, h4, h5, h6⟩
    simp only [squashfs_listxattr, hst, squashfs_xattr_iterator_end]
    norm_num
    rw [release_of_none _ h5 h6]
    simp [h1, h2, h3, h4]

lemma getLoop_encode (qname : List Nat) :
    ∀ (es : List XEntry) (fuel : Nat) (a b blk off L live : Nat) (nm vl : Option (List Nat)),
      (∀ e ∈ es, e.name.length ≤ 4096 ∧ e.value.length ≤ 65536) →
      3 * es.length < fuel →
      live = L + (if nm.isSome then 1 else 0) + (if vl.isSome then 1 else 0) →
      (matchFirst qname es = none →
        (getLoop qname false 0 fuel
            ⟨a, b, nm, vl, blk, off, sumSizes es, ⟨encodeEntries es, [], live⟩⟩).1 = false) ∧
      (∀ e, matchFirst qname es = some e →
        (getLoop qname false 0 fuel
            ⟨a, b, nm, vl, blk, off, sumSizes es, ⟨encodeEntries es, [], live⟩⟩).1 = true ∧
        (getLoop qname false 0 fuel
            ⟨a, b, nm, vl, blk, off, sumSizes es, ⟨encodeEntries es, [], live⟩⟩).2.1
          = (e.value.length : Int)) := by
  intro es
  induction es with
  | nil =>
    intro fuel a b blk off L live nm vl _ hfuel hlive
    cases fuel with
    | zero => exact (Nat.not_lt_zero _ hfuel).elim
    | succ f =>
      simp only [getLoop, sumSizes, encodeEntries]
      rw [next_zero_encode a b blk off L live nm vl _ _ hlive]
      simp [matchFirst]
  | cons e tl ih =>
    intro fuel a b blk off L live nm vl hb hfuel hlive
    cases fuel with
    | zero => exact (Nat.not_lt_zero _ hfuel).elim
    | succ f =>
      have he := hb e (by simp)
      have htl : ∀ y ∈ tl, y.name.length ≤ 4096 ∧ y.value.length ≤ 65536 := by
        intro y hy; exact hb y (by simp [hy])
      have hf : 3 * tl.length < f := by
        simp only [List.length_cons] at hfuel; omega
      simp only [getLoop, sumSizes, entrySize, encodeEntries]
      rw [next_encode e.name e.value he.1 he.2 a b blk off (sumSizes tl) L live nm vl _ hlive]
      by_cases hm : strncmp qname (e.name ++ [0]) e.name.length = 0
      · simp [matchFirst, List.find?_cons, hm]
      · rcases ih f e.name.length e.value.length blk off L (L + 2)
          (some (e.name ++ [0])) (some e.value) htl hf (by simp) with ⟨ihn, ihs⟩
        simp only [matchFirst, List.find?] at ihn ihs ⊢
        have hbeq : (strncmp qname (e.name ++ [0]) e.name.length == 0) = false := by
          simp [hm]
        rw [hbeq]
        simp only [Option.getD_some]
        rw [if_pos hm]
        exact ⟨ihn, ihs⟩

lemma strncmp_take (k : Nat) : ∀ (q1 q2 nm : List Nat), q1.take k = q2.take k →
    strncmp q1 nm k = strncmp q2 nm k := by
  induction k with
  | zero => intro q1 q2 nm _; simp [strncmp]
  | succ n ih =>
    intro q1 q2 nm h
    cases q1 with
    | nil =>
      cases q2 with
      | nil => rfl
      | cons c2 t2 => simp [List.take] at h
    | cons c1 t1 =>
      cases q2 with
      | nil => simp [List.take] at h
      | cons c2 t2 =>
        simp only [List.take, List.cons.injEq] at h
        obtain ⟨hc, ht⟩ := h
        subst hc
        simp only [strncmp, List.headD_cons, List.tail_cons]
        split_ifs <;> first | rfl | exact ih t1 t2 nm.tail ht

/-- C7 kernel: on any well-formed encoded attribute set, Get returns the
value length of the first entry whose decoded, NUL-terminated name the
length-bounded strncmp (bounded by the entry's own name_len) finds equal
to the query, and NOT_FOUND otherwise; moreover strncmp bounded by k
only ever depends on the first k bytes of the query, so agreement beyond
name_len is not required for a match. -/
theorem squashfs_getxattr_match_semantics (es : List XEntry) (qname : List Nat) (x t : Int)
    (L : Nat) (hwf : WFSet es) (hx : x ≠ -1) (ht : t ≠ -1) :
    (squashfs_getxattr x t qname false 0 ⟨encodeSet es, [], L⟩).1
      = (match matchFirst qname es with
         | some e => (e.value.length : Int)
         | none => -ENODATA) ∧
    (∀ (q1 q2 nm : List Nat) (k : Nat), q1.take k = q2.take k →
        strncmp q1 nm k = strncmp q2 nm k) := by
  rcases hwf with ⟨hsize, hb⟩
  have hst := start_encode es x t L hx ht hsize
  have hfuel : 3 * es.length < (encodeEntries es).length + 1 := by
    rw [encodeEntries_length]; omega
  refine ⟨?_, fun q1 q2 nm k h => strncmp_take k q1 q2 nm h⟩
  rcases getLoop_encode qname es ((encodeEntries es).length + 1) 0 0
      (((t + Int.fdiv x 8192).emod 18446744073709551616).toNat)
      ((x.emod 8192).toNat) L L none none hb hfuel (by simp) with ⟨hnone, hsome⟩
  simp only [squashfs_getxattr, hst]
  norm_num
  cases hmf : matchFirst qname es with
  | none => simp [hnone hmf]
  | some e =>
    rcases hsome e hmf with ⟨hq1, hq2⟩
    simp [hq1, hq2]

lemma readMetadata_live (w : World) (len : Nat) : (readMetadata w len).2.2.live = w.live := by
  rcases w with ⟨cur, al, L⟩
  rcases cur with _ | ⟨rr, rest⟩
  · rfl
  · rcases rr with bs | e <;> rfl

lemma readMetadata_allocs (w : World) (len : Nat) :
    (readMetadata w len).2.2.allocs = w.allocs := by
  rcases w with ⟨cur, al, L⟩
  rcases cur with _ | ⟨rr, rest⟩
  · rfl
  · rcases rr with bs | e <;> rfl

lemma kmalloc_live (w : World) (s : Nat) :
    (kmalloc w s).2.live = w.live + (if (kmalloc w s).1 = true then 1 else 0) := by
  rcases w with ⟨cur, al, L⟩
  rcases al with _ | ⟨b, al⟩
  · simp [kmalloc]
  · simp only [kmalloc]
    split <;> simp

lemma xattr_read_payload_live (nl vlen blk off R1 : Nat) (w : World) (p : Int × Iter)
    (hp : p = xattr_read_payload nl vlen none blk off R1 w) :
    p.2.world.live = w.live + countSome p.2 := by
  rw [xattr_read_payload] at hp
  dsimp only at hp
  split at hp
  · subst hp; simp_all [countSome, kmalloc_live]
  · split at hp
    · subst hp
      simp_all [countSome, kmalloc_live, Bool.not_eq_false]
    · split at hp
      · subst hp
        simp_all [countSome, kmalloc_live, readMetadata_live, Bool.not_eq_false]
      · split at hp
        · subst hp
          simp_all [countSome, kmalloc_live, readMetadata_live, Bool.not_eq_false]
        · split at hp
          · subst hp
            simp_all [countSome, kmalloc_live, readMetadata_live, Bool.not_eq_false]
          · split at hp
            · subst hp
              simp_all [countSome, kmalloc_live, readMetadata_live, Bool.not_eq_false]
            · subst hp
              simp_all [countSome, kmalloc_live, readMetadata_live, Bool.not_eq_false]

lemma read_next_live_aux (a b blk off R : Nat) (w : World) (p : Int × Iter)
    (hp : p = xattr_iterator_read_next ⟨a, b, none, none, blk, off, R, w⟩) :
    p.2.world.live = w.live + countSome p.2 := by
  rw [xattr_iterator_read_next] at hp
  dsimp only at hp
  split at hp
  · subst hp; simp [countSome]
  · split at hp
    · subst hp; simp [countSome]
    · split at hp
      · subst hp; simp [countSome, readMetadata_live]
      · split at hp
        · subst hp; simp [countSome, readMetadata_live]
        · split at hp
          · subst hp; simp [countSome, readMetadata_live]
          · split at hp
            · subst hp; simp [countSome, readMetadata_live]
            · have := xattr_read_payload_live _ _ blk off _ _ p hp
              rw [this, readMetadata_live]

lemma read_next_live (it : Iter) (h1 : it.name = none) (h2 : it.value = none) :
    (xattr_iterator_read_next it).2.world.live
      = it.world.live + countSome (xattr_iterator_read_next it).2 := by
  rcases it with ⟨a, b, nm, vl, blk, off, R, w⟩
  simp only at h1 h2
  subst h1; subst h2
  exact read_next_live_aux a b blk off R w _ rfl

lemma release_inv (it : Iter) :
    (xattr_iterator_release_buffer it).name = none ∧
    (xattr_iterator_release_buffer it).value = none ∧
    (xattr_iterator_release_buffer it).world.live = it.world.live - countSome it ∧
    (xattr_iterator_release_buffer it).world.cursor = it.world.cursor ∧
    (xattr_iterator_release_buffer it).world.allocs = it.world.allocs ∧
    (xattr_iterator_release_buffer it).remaining_bytes = it.remaining_bytes := by
  rcases it with ⟨a, b, nm, vl, blk, off, R, ⟨cur, al, L⟩⟩
  rcases nm <;> rcases vl <;>
    simp [xattr_iterator_release_buffer, countSome] <;> omega

lemma next_live (it : Iter) (L : Nat) (h : it.world.live = L + countSome it) :
    (squashfs_xattr_iterator_next it).2.world.live
      = L + countSome (squashfs_xattr_iterator_next it).2 := by
  unfold squashfs_xattr_iterator_next
  obtain ⟨g1, g2, g3, _, _, _⟩ := release_inv it
  have hrel : (xattr_iterator_release_buffer it).world.live = L := by
    rw [g3, h]; omega
  have hr := read_next_live (xattr_iterator_release_buffer it) g1 g2
  rw [hr, hrel]

lemma listLoop_live (priv buf : Bool) :
    ∀ (fuel size written : Nat) (out : List Nat) (it : Iter) (L : Nat),
      it.world.live = L + countSome it →
      (listLoop priv buf fuel size written out it).2.2.2.world.live
        = L + countSome (listLoop priv buf fuel size written out it).2.2.2 := by
  intro fuel
  induction fuel with
  | zero => intro size written out it L h; simpa [listLoop] using h
  | succ f ih =>
    intro size written out it L h
    have hnext := next_live it L h
    simp only [listLoop]
    by_cases hr : (squashfs_xattr_iterator_next it).1 = 1
    · rw [if_pos hr]
      by_cases hfil : filtered priv ((squashfs_xattr_iterator_next it).2.name.getD []) = true
      · rw [if_pos hfil]
        exact ih size written out _ L hnext
      · rw [if_neg hfil]
        by_cases hbuf : buf = false
        · rw [if_pos hbuf]
          exact ih size _ out _ L hnext
        · rw [if_neg hbuf]
          by_cases hsz : size < (squashfs_xattr_iterator_next it).2.name_len + 1
          · rw [if_pos hsz]
            exact hnext
          · rw [if_neg hsz]
            exact ih _ _ _ _ L hnext
    · rw [if_neg hr]
      exact hnext

lemma getLoop_live (qname : List Nat) (buf : Bool) (size : Nat) :
    ∀ (fuel : Nat) (it : Iter) (L : Nat),
      it.world.live = L + countSome it →
      (getLoop qname buf size fuel it).2.2.2.world.live
        = L + countSome (getLoop qname buf size fuel it).2.2.2 := by
  intro fuel
  induction fuel with
  | zero => intro it L h; simpa [getLoop] using h
  | succ f ih =>
    intro it L h
    have hnext := next_live it L h
    simp only [getLoop]
    by_cases hr : (squashfs_xattr_iterator_next it).1 = 1
    · rw [if_pos hr]
      by_cases hm : strncmp qname ((squashfs_xattr_iterator_next it).2.name.getD [])
          (squashfs_xattr_iterator_next it).2.name_len ≠ 0
      · rw [if_pos hm]
        exact ih _ L hnext
      · rw [if_neg hm]
        by_cases hbuf : buf = true
        · rw [if_pos hbuf]
          by_cases hsz : size < (squashfs_xattr_iterator_next it).2.value_len
          · rw [if_pos hsz]; exact hnext
          · rw [if_neg hsz]; exact hnext
        · rw [if_neg hbuf]
          exact hnext
    · rw [if_neg hr]
      exact hnext

lemma start_inv (x t : Int) (w : World) :
    (squashfs_xattr_iterator_start x t w).2.name = none ∧
    (squashfs_xattr_iterator_start x t w).2.value = none ∧
    (squashfs_xattr_iterator_start x t w).2.world.live = w.live := by
  simp only [squashfs_xattr_iterator_start]
  split
  · simp
  · split
    · simp [readMetadata_live]
    · split <;> simp [readMetadata_live]

lemma squashfs_listxattr_live (priv : Bool) (x t : Int) (buf : Bool) (size : Nat) (w : World) :
    (squashfs_listxattr priv x t buf size w).2.2.live = w.live := by
  obtain ⟨s1, s2, s3⟩ := start_inv x t w
  simp only [squashfs_listxattr]
  split
  · exact s3
  · have hstartinv : (squashfs_xattr_iterator_start x t w).2.world.live
        = w.live + countSome (squashfs_xattr_iterator_start x t w).2 := by
      rw [s3]; simp [countSome, s1, s2]
    have hloop := listLoop_live priv buf
      ((squashfs_xattr_iterator_start x t w).2.world.cursor.length + 1) size 0 []
      (squashfs_xattr_iterator_start x t w).2 w.live hstartinv
    obtain ⟨_, _, r3, _, _, _⟩ := release_inv
      (listLoop priv buf ((squashfs_xattr_iterator_start x t w).2.world.cursor.length + 1)
        size 0 [] (squashfs_xattr_iterator_start x t w).2).2.2.2
    simp only [squashfs_xattr_iterator_end]
    rw [r3, hloop]
    omega

lemma squashfs_getxattr_live (x t : Int) (qname : List Nat) (buf : Bool) (size : Nat)
    (w : World) :
    (squashfs_getxattr x t qname buf size w).2.2.live = w.live := by
  obtain ⟨s1, s2, s3⟩ := start_inv x t w
  simp only [squashfs_getxattr]
  split
  · exact s3
  · split
    · obtain ⟨_, _, r3, _, _, _⟩ := release_inv (squashfs_xattr_iterator_start x t w).2
      simp only [squashfs_xattr_iterator_end]
      rw [r3, s3]
      simp [countSome, s1, s2]
    · have hstartinv : (squashfs_xattr_iterator_start x t w).2.world.live
          = w.live + countSome (squashfs_xattr_iterator_start x t w).2 := by
        rw [s3]; simp [countSome, s1, s2]
      have hloop := getLoop_live qname buf size
        ((squashfs_xattr_iterator_start x t w).2.world.cursor.length + 1)
        (squashfs_xattr_iterator_start x t w).2 w.live hstartinv
      obtain ⟨_, _, r3, _, _, _⟩ := release_inv
        (getLoop qname buf size
          ((squashfs_xattr_iterator_start x t w).2.world.cursor.length + 1)
          (squashfs_xattr_iterator_start x t w).2).2.2.2
      simp only [squashfs_xattr_iterator_end]
      rw [r3, hloop]
      omega

lemma xattr_read_payload_success (nl vlen : Nat) (vl : Option (List Nat))
    (blk off R1 : Nat) (w : World) (it' : Iter) (e : Int)
    (hp : xattr_read_payload nl vlen vl blk off R1 w = (e, it')) (he : e = 1) :
    it'.name_len = nl ∧ it'.value_len = vlen ∧
    it'.remaining_bytes = R1 - (nl + vlen) := by
  subst he
  rw [xattr_read_payload] at hp
  dsimp only at hp
  split at hp
  · simp [ENOMEM] at hp
  · split at hp
    · simp [ENOMEM] at hp
    · split at hp
      · obtain ⟨h1, _⟩ := Prod.mk.injEq .. ▸ hp
        omega
      · split at hp
        · simp [EIOerr] at hp
        · split at hp
          · obtain ⟨h1, _⟩ := Prod.mk.injEq .. ▸ hp
            omega
          · split at hp
            · simp [EIOerr] at hp
            · obtain ⟨-, h2⟩ := Prod.mk.injEq .. ▸ hp
              subst h2
              exact ⟨rfl, rfl, rfl⟩

lemma read_next_success (it it' : Iter) (h : xattr_iterator_read_next it = (1, it')) :
    8 + it'.name_len + it'.value_len ≤ it.remaining_bytes ∧
    it'.remaining_bytes = it.remaining_bytes - (8 + it'.name_len + it'.value_len) := by
  rcases it with ⟨a, b, nm, vl, blk, off, R, w⟩
  rw [xattr_iterator_read_next] at h
  dsimp only at h
  split at h
  · simp at h
  · split at h
    · simp [EIOerr] at h
    · split at h
      · obtain ⟨h1, _⟩ := Prod.mk.injEq .. ▸ h
        omega
      · split at h
        · simp at h
        · split at h
          · simp [EIOerr] at h
          · split at h
            · simp [EIOerr] at h
            · rename_i hR0 hR8 hneg hshort hbound hbudget
              obtain ⟨e1, e2, e3⟩ := xattr_read_payload_success _ _ _ _ _ _ _ _ _ h rfl
              simp only [e1, e2, e3]
              constructor
              · omega
              · omega

lemma next_success (it it' : Iter) (h : squashfs_xattr_iterator_next it = (1, it')) :
    8 + it'.name_len + it'.value_len ≤ it.remaining_bytes ∧
    it'.remaining_bytes = it.remaining_bytes - (8 + it'.name_len + it'.value_len) := by
  unfold squashfs_xattr_iterator_next at h
  obtain ⟨_, _, _, _, _, r6⟩ := release_inv it
  have hacc := read_next_success _ _ h
  rw [r6] at hacc
  exact hacc

lemma iterCountF_le (fuel : Nat) : ∀ it : Iter, iterCountF fuel it ≤ it.remaining_bytes / 8 := by
  induction fuel with
  | zero => intro it; simp [iterCountF]
  | succ f ih =>
    intro it
    simp only [iterCountF]
    by_cases hr : (squashfs_xattr_iterator_next it).1 = 1
    · rw [if_pos hr]
      have h : squashfs_xattr_iterator_next it = (1, (squashfs_xattr_iterator_next it).2) := by
        rw [← hr]
      have hacc := next_success it (squashfs_xattr_iterator_next it).2 h
      have hih := ih (squashfs_xattr_iterator_next it).2
      omega
    · rw [if_neg hr]
      omega

/-- C10 kernel: a successful iterator step consumes at least 8 budget
bytes, exactly 8 + name_len + value_len of them, and only after the
bound check guarantees the subtraction cannot underflow; consequently a
query whose budget starts at B obtains at most B / 8 entries before the
iterator stops. -/
theorem iterator_budget_accounting :
    (∀ it it' : Iter, squashfs_xattr_iterator_next it = (1, it') →
        8 ≤ 8 + it'.name_len + it'.value_len ∧
        8 + it'.name_len + it'.value_len ≤ it.remaining_bytes ∧
        it'.remaining_bytes = it.remaining_bytes - (8 + it'.name_len + it'.value_len)) ∧
    (∀ it : Iter, iterCount it ≤ it.remaining_bytes / 8) := by
  constructor
  · intro it it' h
    obtain ⟨h1, h2⟩ := next_success it it' h
    exact ⟨by omega, h1, h2⟩
  · intro it
    exact iterCountF_le _ it

/-- Witness for iterator_budget_accounting at a concrete one-entry set:
budget 12, entry name "abc" value [42]; the step leaves budget 0. -/
theorem iterator_budget_accounting_witness :
    (⟨3, 1, some [97, 98, 99, 0], some [42], 0, 0, 0, ⟨[], [], 2⟩⟩ : Iter).remaining_bytes
      = (⟨0, 0, none, none, 0, 0, 12,
          ⟨[ReadResult.ok (le32enc 3 ++ le32enc 1), ReadResult.ok [97, 98, 99],
            ReadResult.ok [42]], [], 0⟩⟩ : Iter).remaining_bytes - (8 + 3 + 1) :=
  (iterator_budget_accounting.1
    ⟨0, 0, none, none, 0, 0, 12,
      ⟨[ReadResult.ok (le32enc 3 ++ le32enc 1), ReadResult.ok [97, 98, 99],
        ReadResult.ok [42]], [], 0⟩⟩
    ⟨3, 1, some [97, 98, 99, 0], some [42], 0, 0, 0, ⟨[], [], 2⟩⟩
    (by decide)).2.2

/-- C9 kernel: the iterator's step operation releases the previous
buffers before decoding (definitionally), release NULLs both slots and
returns their allocations, and whole List/Get calls never change the
number of live buffers, whatever the cursor script, allocation oracle,
privilege, buffer mode or query: no buffer survives a query. -/
theorem iterator_buffer_discipline :
    (∀ it : Iter, squashfs_xattr_iterator_next it
        = xattr_iterator_read_next (xattr_iterator_release_buffer it)) ∧
    (∀ it : Iter, (xattr_iterator_release_buffer it).name = none ∧
        (xattr_iterator_release_buffer it).value = none ∧
        (xattr_iterator_release_buffer it).world.live = it.world.live - countSome it) ∧
    (∀ (priv : Bool) (x t : Int) (buf : Bool) (size : Nat) (w : World),
        (squashfs_listxattr priv x t buf size w).2.2.live = w.live) ∧
    (∀ (x t : Int) (qname : List Nat) (buf : Bool) (size : Nat) (w : World),
        (squashfs_getxattr x t qname buf size w).2.2.live = w.live) := by
  refine ⟨fun it => rfl, fun it => ?_, squashfs_listxattr_live, squashfs_getxattr_live⟩
  obtain ⟨a1, a2, a3, _, _, _⟩ := release_inv it
  exact ⟨a1, a2, a3⟩

/-- Witness for squashfs_listxattr_sizing_roundtrip (C6) at the spec's
example set: one entry, name "abc", value [42]; required size 4, the
buffered call writes "abc" NUL-terminated. -/
theorem squashfs_listxattr_sizing_roundtrip_witness :
    squashfs_listxattr true 0 0 false 0
        ⟨encodeSet [⟨[97, 98, 99], [42]⟩], [], 0⟩ = (4, [], ⟨[], [], 0⟩) ∧
    squashfs_listxattr true 0 0 true 4
        ⟨encodeSet [⟨[97, 98, 99], [42]⟩], [], 0⟩ = (4, [97, 98, 99, 0], ⟨[], [], 0⟩) :=
  squashfs_listxattr_sizing_roundtrip [⟨[97, 98, 99], [42]⟩] true 0 0 0
    ⟨by decide, by decide⟩ (by decide) (by decide)

/-- Witness for squashfs_getxattr_match_semantics (C7): the query
"abcdef" matches the stored name "abc" (only the first name_len bytes
are compared), returning value length 1; an absent name returns
NOT_FOUND. -/
theorem squashfs_getxattr_match_semantics_witness :
    (squashfs_getxattr 0 0 [97, 98, 99, 100, 101, 102] false 0
        ⟨encodeSet [⟨[97, 98, 99], [42]⟩], [], 0⟩).1 = 1 ∧
    (squashfs_getxattr 0 0 [120] false 0
        ⟨encodeSet [⟨[97, 98, 99], [42]⟩], [], 0⟩).1 = -61 :=
  ⟨(squashfs_getxattr_match_semantics [⟨[97, 98, 99], [42]⟩] [97, 98, 99, 100, 101, 102]
      0 0 0 ⟨by decide, by decide⟩ (by decide) (by decide)).1,
   (squashfs_getxattr_match_semantics [⟨[97, 98, 99], [42]⟩] [120]
      0 0 0 ⟨by decide, by decide⟩ (by decide) (by decide)).1⟩

/-- C1: evaluation at the failing input.  An attribute set whose first
entry declares name_len 5000 (> 4096) makes the iterator fail with
-EIOerr; squashfs_listxattr propagates that error, but squashfs_getxattr
returns -ENODATA because its loop's error exit falls through the
notfound label.  The same happens when the failure is an allocation
failure (-ENOMEM, third conjunct). -/
theorem squashfs_getxattr_swallows_iterator_error :
    (squashfs_listxattr true 0 0 false 0
        ⟨[ReadResult.ok (le32enc 20), ReadResult.ok (le32enc 5000 ++ le32enc 0)], [], 0⟩).1
      = -EIOerr ∧
    (squashfs_getxattr 0 0 [97] false 0
        ⟨[ReadResult.ok (le32enc 20), ReadResult.ok (le32enc 5000 ++ le32enc 0)], [], 0⟩).1
      = -ENODATA ∧
    (squashfs_getxattr 0 0 [97, 98, 99] false 0
        ⟨[ReadResult.ok (le32enc 16), ReadResult.ok (le32enc 3 ++ le32enc 1),
          ReadResult.ok [97, 98, 99], ReadResult.ok [42]], [false], 0⟩).1
      = -ENODATA := by decide

/-- C2: evaluation at the failing input.  With entries "user.a" and
"trusted.b" and no privilege, List returns 10 — only "trusted.b" plus
its NUL — because filtered() skips exactly the names NOT starting with
the trusted namespace bytes (the comparison is inverted); with
privilege it returns 17 (both names).  Get never consults the filter at
all (it takes no privilege input) and happily returns the trusted
entry's value length. -/
theorem squashfs_filtered_is_inverted :
    (squashfs_listxattr false 0 0 false 0
        ⟨encodeSet [⟨[117, 115, 101, 114, 46, 97], [1]⟩,
                    ⟨[116, 114, 117, 115, 116, 101, 100, 46, 98], [2]⟩], [], 0⟩).1 = 10 ∧
    (squashfs_listxattr false 0 0 true 10
        ⟨encodeSet [⟨[117, 115, 101, 114, 46, 97], [1]⟩,
                    ⟨[116, 114, 117, 115, 116, 101, 100, 46, 98], [2]⟩], [], 0⟩).2.1
      = [116, 114, 117, 115, 116, 101, 100, 46, 98, 0] ∧
    (squashfs_listxattr true 0 0 false 0
        ⟨encodeSet [⟨[117, 115, 101, 114, 46, 97], [1]⟩,
                    ⟨[116, 114, 117, 115, 116, 101, 100, 46, 98], [2]⟩], [], 0⟩).1 = 17 ∧
    (squashfs_getxattr 0 0 [116, 114, 117, 115, 116, 101, 100, 46, 98] false 0
        ⟨encodeSet [⟨[117, 115, 101, 114, 46, 97], [1]⟩,
                    ⟨[116, 114, 117, 115, 116, 101, 100, 46, 98], [2]⟩], [], 0⟩).1 = 1 := by
  decide

/-- C3: evaluation at the failing input.  With budget 12 remaining, the
cursor returns only 4 of the 8 requested entry-header bytes (no I/O
error); the step returns 0 — the same code as a clean end of
iteration — and a whole List call over such a set reports success 0
instead of an error. -/
theorem short_entry_header_read_is_silent_success :
    (xattr_iterator_read_next
        ⟨0, 0, none, none, 0, 0, 12, ⟨[ReadResult.ok [1, 2, 3, 4]], [], 0⟩⟩).1 = 0 ∧
    (squashfs_listxattr true 0 0 false 0
        ⟨[ReadResult.ok (le32enc 16), ReadResult.ok [1, 2, 3, 4]], [], 0⟩).1 = 0 := by decide

/-- C4: evaluation at the failing input.  A header with total_size 0
makes `total_size - 4` wrap to 4294967292 in the unsigned budget, so the
first entry read does not reject the corrupt header: it decodes a
following entry and Get happily returns its value length. -/
theorem negative_budget_wraps_and_reads_entries :
    (squashfs_xattr_iterator_start 0 0 ⟨[ReadResult.ok [0, 0, 0, 0]], [], 0⟩).1 = 1 ∧
    (squashfs_xattr_iterator_start 0 0
        ⟨[ReadResult.ok [0, 0, 0, 0]], [], 0⟩).2.remaining_bytes = 4294967292 ∧
    (squashfs_getxattr 0 0 [97, 98, 99] false 0
        ⟨[ReadResult.ok [0, 0, 0, 0], ReadResult.ok (le32enc 3 ++ le32enc 1),
          ReadResult.ok [97, 98, 99], ReadResult.ok [42]], [], 0⟩).1 = 1 := by decide

/-- C5: evaluation at the failing inputs.  An entry with name_len 5000
in second position makes List fail with -EIOerr (the code's FORMAT error),
as do value_len 70000 and a combined length exceeding the budget; but
the Get call that reaches the same entry returns -ENODATA, not a FORMAT
error, because the loop's error exit is clobbered at the notfound
label. -/
theorem oversize_entry_format_error_only_in_list :
    (squashfs_listxattr true 0 0 false 0
        ⟨[ReadResult.ok (le32enc 21), ReadResult.ok (le32enc 1 ++ le32enc 0),
          ReadResult.ok [97], ReadResult.ok [],
          ReadResult.ok (le32enc 5000 ++ le32enc 0)], [], 0⟩).1 = -EIOerr ∧
    (squashfs_getxattr 0 0 [122, 122] false 0
        ⟨[ReadResult.ok (le32enc 21), ReadResult.ok (le32enc 1 ++ le32enc 0),
          ReadResult.ok [97], ReadResult.ok [],
          ReadResult.ok (le32enc 5000 ++ le32enc 0)], [], 0⟩).1 = -ENODATA ∧
    (squashfs_listxattr true 0 0 false 0
        ⟨[ReadResult.ok (le32enc 16), ReadResult.ok (le32enc 0 ++ le32enc 70000)], [], 0⟩).1
      = -EIOerr ∧
    (squashfs_listxattr true 0 0 false 0
        ⟨[ReadResult.ok (le32enc 16), ReadResult.ok (le32enc 3 ++ le32enc 2)], [], 0⟩).1
      = -EIOerr := by decide

/-- C8 counterexample: for the 32-bit locator 2147483648 (bit 31 set)
and table base 1048576, the code computes block 786432 — the locator is
held in a signed int so >> 13 sign-extends — while the claimed formula
table_base + (locator >> 13) gives 1310720. -/
theorem locator_decode_counterexample :
    toInt32 2147483648 ≠ -1 ∧ (1048576 : Int) ≠ -1 ∧
    (squashfs_xattr_iterator_start (toInt32 2147483648) 1048576 ⟨[], [], 0⟩).2.block
      = 786432 ∧
    786432 ≠ 1048576 + (2147483648 >>> 13) := by decide

lemma int_emod_eq_mod (a b : Int) : Int.emod a b = a % b := rfl

lemma start_block_offset (x t : Int) (w : World) (hcond : ¬ (x = -1 ∨ t = -1)) :
    (squashfs_xattr_iterator_start x t w).2.block
      = ((t + Int.fdiv x 8192).emod 18446744073709551616).toNat ∧
    (squashfs_xattr_iterator_start x t w).2.offset = (x.emod 8192).toNat := by
  simp only [squashfs_xattr_iterator_start, hcond, if_false]
  constructor
  · split
    · rfl
    · split <;> rfl
  · split
    · rfl
    · split <;> rfl

/-- C8 amended: decode follows the C `int` semantics.  The offset is
always locator mod 8192 (hence < 8192); the block is
table_base + locator / 8192 for locators below 2^31 and
table_base + locator / 8192 − 2^19 for locators with the sign bit set
(the arithmetic shift of the signed 32-bit value).  An absent table or
a sentinel locator is the empty attribute set: start reports 0 without
any cursor read, List returns 0, Get returns NOT_FOUND, and the world
is returned untouched. -/
theorem locator_decode_semantics :
    (∀ (loc : Nat) (t : Int) (w : World), loc < 4294967296 → loc ≠ 4294967295 →
      262144 ≤ t → t + 524288 < 18446744073709551616 →
      (squashfs_xattr_iterator_start (toInt32 loc) t w).2.offset = loc % 8192 ∧
      loc % 8192 < 8192 ∧
      (loc < 2147483648 →
        (squashfs_xattr_iterator_start (toInt32 loc) t w).2.block
          = t.toNat + loc / 8192) ∧
      (2147483648 ≤ loc →
        (squashfs_xattr_iterator_start (toInt32 loc) t w).2.block
          = t.toNat + loc / 8192 - 524288)) ∧
    (∀ (x t : Int) (w : World) (priv buf : Bool) (size : Nat) (qname : List Nat),
      x = -1 ∨ t = -1 →
      squashfs_xattr_iterator_start x t w = (0, ⟨0, 0, none, none, 0, 0, 0, w⟩) ∧
      squashfs_listxattr priv x t buf size w = (0, [], w) ∧
      squashfs_getxattr x t qname buf size w = (-ENODATA, [], w)) := by
  constructor
  · intro loc t w h32 hsent ht1 ht2
    have hmod : loc % 4294967296 = loc := Nat.mod_eq_of_lt h32
    have hx : toInt32 loc
        = if loc < 2147483648 then (loc : Int) else (loc : Int) - 4294967296 := by
      unfold toInt32
      rw [hmod]
    have hcond : ¬ (toInt32 loc = -1 ∨ t = -1) := by
      rw [hx]
      rintro (h | h)
      · split at h <;> omega
      · omega
    obtain ⟨hb, ho⟩ := start_block_offset (toInt32 loc) t w hcond
    by_cases hlow : loc < 2147483648
    · have hx' : toInt32 loc = (loc : Int) := by rw [hx, if_pos hlow]
      rw [hx'] at hb ho ⊢
      rw [Int.fdiv_eq_ediv _ (by norm_num)] at hb
      simp only [int_emod_eq_mod] at hb ho
      refine ⟨by rw [ho]; omega, by omega, fun _ => by rw [hb]; omega, fun hc => by omega⟩
    · have hx' : toInt32 loc = (loc : Int) - 4294967296 := by rw [hx, if_neg hlow]
      rw [hx'] at hb ho ⊢
      rw [Int.fdiv_eq_ediv _ (by norm_num)] at hb
      simp only [int_emod_eq_mod] at hb ho
      refine ⟨by rw [ho]; omega, by omega, fun hc => by omega, fun _ => by rw [hb]; omega⟩
  · intro x t w priv buf size qname h
    have hcond : x = -1 ∨ t = -1 := h
    refine ⟨?_, ?_, ?_⟩
    · simp [squashfs_xattr_iterator_start, hcond]
    · simp [squashfs_listxattr, squashfs_xattr_iterator_start, hcond]
    · simp [squashfs_getxattr, squashfs_xattr_iterator_start, hcond,
        squashfs_xattr_iterator_end, xattr_iterator_release_buffer]

/-- Witness for locator_decode_semantics (C8 amended) at locator 16387
(block displacement 2, offset 3) and table base 262144, and at the
sign-bit locator 2147483648. -/
theorem locator_decode_semantics_witness :
    ((squashfs_xattr_iterator_start (toInt32 16387) 262144 ⟨[], [], 0⟩).2.offset = 3 ∧
      (squashfs_xattr_iterator_start (toInt32 16387) 262144 ⟨[], [], 0⟩).2.block = 262146) ∧
    (squashfs_xattr_iterator_start (toInt32 2147483648) 262144 ⟨[], [], 0⟩).2.block
      = 262144 + 262144 - 524288 ∧
    squashfs_listxattr true (-1) 0 false 0 ⟨[], [], 0⟩ = (0, [], ⟨[], [], 0⟩) := by
  have h1 := (locator_decode_semantics.1 16387 262144 ⟨[], [], 0⟩
    (by decide) (by decide) (by decide) (by decide))
  have h2 := (locator_decode_semantics.1 2147483648 262144 ⟨[], [], 0⟩
    (by decide) (by decide) (by decide) (by decide))
  have h3 := (locator_decode_semantics.2 (-1) 0 ⟨[], [], 0⟩ true false 0 []
    (Or.inl rfl))
  exact ⟨⟨h1.1, h1.2.2.1 (by decide)⟩, h2.2.2.2 (by decide), h3.2.1⟩

end SquashfsXattr
